/-
Verification of the key-derivation pipeline of `src/commands/keys.py`.

The program is a thin CLI over external chia libraries.  The pipeline code of
`generate_xch_key` and `mnemonic_to_validator_pk` is embedded faithfully below,
parametrically over the external BLS primitives (the `KeyLib` structure), since
their internals live in `chia_rs` / `chia.wallet` and are not part of this
repository.  The external helpers whose input/output behaviour the spec pins
down (mnemonic codec, `mnemonic_to_seed`, bech32m address codec, and
`secrets.token_bytes`) are modelled from the spec as executable definitions.
-/
import Mathlib

set_option maxRecDepth 8000

/-- Value of a big-endian digit list in the given base (accumulator fold, as in
the byte/word concatenation done by the mnemonic and bech32m codecs). -/
def ofDigits (base : Nat) (ds : List Nat) : Nat :=
  ds.foldl (fun a d => base * a + d) 0

/-- Big-endian digit list of fixed length `len` of a number in the given base. -/
def toDigits (base : Nat) : Nat → Nat → List Nat
  | 0, _ => []
  | len + 1, n => toDigits base len (n / base) ++ [n % base]

/-- Modelled from the spec: the checksum bits appended to the entropy by the
standardized mnemonic scheme of `chia.util.keychain` (4 checksum bits for
16 bytes of entropy); the concrete hash inside the external library is
abstracted to a deterministic 4-bit digest of the entropy bytes. -/
def entropyChecksum (entropy : List Nat) : Nat :=
  (entropy.foldl (· + ·) 0) % 16

/-- Modelled from the spec: `chia.util.keychain.bytes_to_mnemonic`.  The
16 entropy bytes (128 bits) plus the 4 checksum bits are split into twelve
11-bit groups, each an index into the 2048-word list; a mnemonic is represented
as its list of word indices. -/
def bytes_to_mnemonic (entropy : List Nat) : List Nat :=
  toDigits 2048 12 (16 * ofDigits 256 entropy + entropyChecksum entropy)

/-- Modelled from the spec: the reverse direction of the mnemonic codec
(mnemonic word indices back to the entropy bytes), failing when the word count,
a word index, or the checksum is invalid. -/
def mnemonic_to_bytes (m : List Nat) : Option (List Nat) :=
  if m.length = 12 ∧ ∀ w ∈ m, w < 2048 then
    if entropyChecksum (toDigits 256 16 (ofDigits 2048 m / 16)) = ofDigits 2048 m % 16 then
      some (toDigits 256 16 (ofDigits 2048 m / 16))
    else none
  else none

/-- A mnemonic is well formed when it has twelve words, all from the
2048-word list (represented by indices below 2048). -/
abbrev well_formed_mnemonic (m : List Nat) : Prop :=
  m.length = 12 ∧ ∀ w ∈ m, w < 2048

/-- The checksum carried in the last bits of the mnemonic matches the checksum
recomputed from the entropy bytes it encodes. -/
abbrev mnemonic_checksum_ok (m : List Nat) : Prop :=
  entropyChecksum (toDigits 256 16 (ofDigits 2048 m / 16)) = ofDigits 2048 m % 16

/-- Error surfaced by the external keychain when a supplied mnemonic does not
validate. -/
inductive KeychainError where
  | invalidMnemonic
deriving DecidableEq

/-- Modelled from the spec: the deterministic 2048-round HMAC-based key
stretching inside `chia.util.keychain.mnemonic_to_seed`, producing a 64-byte
seed from the mnemonic and the (empty by default) passphrase; the concrete hash
is abstracted to a deterministic mixing function. -/
def seedStretch (m passphrase : List Nat) : List Nat :=
  toDigits 256 64 (ofDigits 2048 m + ofDigits 256 passphrase + 2048)

/-- Modelled from the spec: `chia.util.keychain.mnemonic_to_seed` — validates
the mnemonic (raising `InvalidMnemonic` exactly when validation fails) and
otherwise deterministically stretches it into a 64-byte seed. -/
def mnemonic_to_seed (m passphrase : List Nat) : Except KeychainError (List Nat) :=
  match mnemonic_to_bytes m with
  | none => Except.error KeychainError.invalidMnemonic
  | some _ => Except.ok (seedStretch m passphrase)

/-- Character codes of the 32-symbol bech32m alphabet
`qpzry9x8gf2tvdw0s3jn54khce6mua7l` used by `chia.util.bech32m`. -/
def bech32Chars : List Nat :=
  [113, 112, 122, 114, 121, 57, 120, 56, 103, 102, 50, 116, 118, 100, 119, 48,
   115, 51, 106, 110, 53, 52, 107, 104, 99, 101, 54, 109, 117, 97, 55, 108]

/-- Character code of one 5-bit data symbol. -/
def encodeSym (d : Nat) : Nat := bech32Chars.getD d 0

/-- Position of a character code in the bech32m alphabet, scanning from `i`. -/
def decodeSymAux (c : Nat) : Nat → List Nat → Option Nat
  | _, [] => none
  | i, x :: xs => if x = c then some i else decodeSymAux c (i + 1) xs

/-- 5-bit data symbol of one character code, if the character is in the
alphabet. -/
def decodeSym (c : Nat) : Option Nat := decodeSymAux c 0 bech32Chars

/-- Decode a whole string of data characters, failing on the first character
outside the alphabet. -/
def decodeSyms : List Nat → Option (List Nat)
  | [] => some []
  | c :: cs =>
    match decodeSym c, decodeSyms cs with
    | some d, some ds => some (d :: ds)
    | _, _ => none

/-- Expansion of the human-readable part into 5-bit values for checksum
computation, as in the bech32m scheme (high bits, separator 0, low bits). -/
def hrpExpand (hrp : List Nat) : List Nat :=
  hrp.map (fun c => c / 32) ++ [0] ++ hrp.map (fun c => c % 32)

/-- Modelled from the spec: the six-symbol bech32m checksum of
`chia.util.bech32m`, a deterministic checksum over the expanded human-readable
part and the data symbols; the polynomial-modulus arithmetic of the external
library is abstracted to a deterministic 30-bit digest (the bech32m constant
0x2bc830a3 is retained). -/
def createChecksum (hrp data : List Nat) : List Nat :=
  toDigits 32 6 ((ofDigits 32 (hrpExpand hrp ++ data) + 0x2bc830a3) % 33554432)

/-- Modelled from the spec: `chia.util.bech32m.encode_puzzle_hash` — the
32-byte puzzle hash is regrouped into 52 5-bit symbols (with 4 zero padding
bits), and the address is the human-readable part, the separator `1` (code 49),
the data characters and the checksum characters. -/
def encode_puzzle_hash (puzzle_hash : List Nat) (hrp : List Nat) : List Nat :=
  hrp ++ [49] ++
    ((toDigits 32 52 (16 * ofDigits 256 puzzle_hash)
      ++ createChecksum hrp (toDigits 32 52 (16 * ofDigits 256 puzzle_hash))).map encodeSym)

/-- Modelled from the spec: the reverse direction of the address codec — given
its human-readable part, an address decodes back to the puzzle hash after the
separator, symbol, length, checksum and padding checks. -/
def decode_puzzle_hash (address hrp : List Nat) : Option (List Nat) :=
  if address.take (hrp.length + 1) = hrp ++ [49] then
    match decodeSyms (address.drop (hrp.length + 1)) with
    | none => none
    | some syms =>
      if syms.length = 58 ∧ syms.drop 52 = createChecksum hrp (syms.take 52)
          ∧ ofDigits 32 (syms.take 52) % 16 = 0 then
        some (toDigits 256 32 (ofDigits 32 (syms.take 52) / 16))
      else none
  else none

/-- The OS randomness source behind python's `secrets` module: a stream of
byte values together with an availability flag. -/
structure RandomSource where
  available : Bool
  bytes : Nat → Nat

/-- Modelled from the spec: `secrets.token_bytes n` draws `n` bytes from the
cryptographically secure OS randomness source, and fails exactly when that
source is unavailable. -/
def token_bytes (n : Nat) (source : RandomSource) : Option (List Nat) :=
  if source.available then some ((List.range n).map (fun i => source.bytes i % 256))
  else none

/-- The entropy draw of `generate_xch_key` (line 24 of `keys.py`):
`secrets.token_bytes(16)`; named `generate_entropy` as in the spec. -/
def generate_entropy (source : RandomSource) : Option (List Nat) :=
  token_bytes 16 source

/-- Failures that can surface from one invocation of `generate_xch_key`. -/
inductive GenError where
  | randomnessUnavailable
  | invalidMnemonic
deriving DecidableEq

/-- The external BLS primitives used by `keys.py`, kept abstract: `chia_rs`'s
`AugSchemeMPL.key_gen` and secret keys' `get_g1` / serialization, and
`chia.wallet`'s `_derive_path`, `master_sk_to_wallet_sk_unhardened`,
`calculate_synthetic_public_key`, `puzzle_hash_for_synthetic_public_key` and
the `DEFAULT_HIDDEN_PUZZLE_HASH` constant. -/
structure KeyLib (SK PK : Type) where
  key_gen : List Nat → SK
  _derive_path : SK → List Nat → SK
  master_sk_to_wallet_sk_unhardened : SK → Nat → SK
  get_g1 : SK → PK
  calculate_synthetic_public_key : PK → List Nat → PK
  puzzle_hash_for_synthetic_public_key : PK → List Nat
  sk_bytes : SK → List Nat
  pk_repr : PK → List Nat
  DEFAULT_HIDDEN_PUZZLE_HASH : List Nat

/-- One line echoed to standard output by `generate_xch_key`; the payload is
the derived value whose textual form the line shows. -/
inductive Line where
  | banner
  | mnemonicLine (m : List Nat)
  | privateKeyLine (hex : List Nat)
  | publicKeyLine (pk : List Nat)
  | firstAddressLine (addr : List Nat)
deriving DecidableEq

/-- Character code of one hexadecimal digit (lowercase, as python's `hex`). -/
def hexDigitChar (n : Nat) : Nat := if n < 10 then 48 + n else 87 + n

/-- Lowercase hex string (as character codes) of a byte string, as in
`bytes(private_key).hex()`. -/
def hexOfBytes (bs : List Nat) : List Nat :=
  bs.foldr (fun bt acc => hexDigitChar (bt / 16) :: hexDigitChar (bt % 16) :: acc) []

/-- Embedding of `mnemonic_to_validator_pk` (lines 16–19 of `keys.py`):
seed from the mnemonic, root key via `AugSchemeMPL.key_gen`, then
`_derive_path(root_key, [12381, 8444, 7, 0])`. -/
def mnemonic_to_validator_pk {SK PK : Type} (lib : KeyLib SK PK)
    (mnemonic : List Nat) : Except GenError SK :=
  match mnemonic_to_seed mnemonic [] with
  | Except.error _ => Except.error GenError.invalidMnemonic
  | Except.ok seed =>
    let root_key := lib.key_gen seed
    Except.ok (lib._derive_path root_key [12381, 8444, 7, 0])

/-- Transcription of the inline recomputation at lines 32–34 of `keys.py`:
`seed = mnemonic_to_seed(mnemonic); root_key = AugSchemeMPL.key_gen(seed);
private_key = _derive_path(root_key, [12381, 8444, 7, 0])`. -/
def recomputed_validator_sk {SK PK : Type} (lib : KeyLib SK PK)
    (mnemonic : List Nat) : Except GenError SK :=
  match mnemonic_to_seed mnemonic [] with
  | Except.error _ => Except.error GenError.invalidMnemonic
  | Except.ok seed => Except.ok (lib._derive_path (lib.key_gen seed) [12381, 8444, 7, 0])

/-- Embedding of `generate_xch_key` (lines 21–40 of `keys.py`).  The network
address hrp stands for the configuration value `get_config_item(["xch",
"prefix"])`, supplied by the external configuration collaborator.  Output lines
are collected in echo order; the first three lines are formed before the
rebinding of `private_key` at line 34, exactly as the echoes at lines 26–30
happen before it. -/
def generate_xch_key {SK PK : Type} (lib : KeyLib SK PK) (hrp : List Nat)
    (source : RandomSource) : Except GenError (List Line) :=
  match generate_entropy source with
  | none => Except.error GenError.randomnessUnavailable
  | some entropy =>
    let mnemonic := bytes_to_mnemonic entropy
    match mnemonic_to_validator_pk lib mnemonic with
    | Except.error e => Except.error e
    | Except.ok private_key =>
      let public_key := lib.get_g1 private_key
      let mnemonic_line := Line.mnemonicLine mnemonic
      let private_key_line := Line.privateKeyLine (hexOfBytes (lib.sk_bytes private_key))
      let public_key_line := Line.publicKeyLine (lib.pk_repr public_key)
      match mnemonic_to_seed mnemonic [] with
      | Except.error _ => Except.error GenError.invalidMnemonic
      | Except.ok seed =>
        let root_key := lib.key_gen seed
        let private_key := lib._derive_path root_key [12381, 8444, 7, 0]
        let first_wallet_sk := lib.master_sk_to_wallet_sk_unhardened root_key 0
        let first_wallet_pk := lib.get_g1 first_wallet_sk
        let first_wallet_synthetic_key :=
          lib.calculate_synthetic_public_key first_wallet_pk lib.DEFAULT_HIDDEN_PUZZLE_HASH
        let first_puzzle_hash :=
          lib.puzzle_hash_for_synthetic_public_key first_wallet_synthetic_key
        let first_address := encode_puzzle_hash first_puzzle_hash hrp
        Except.ok [Line.banner, mnemonic_line, private_key_line, public_key_line,
          Line.firstAddressLine first_address]

/-- A concrete instantiation of the abstract BLS primitives over `Nat`, used
to evaluate the parametric theorems on closed inputs. -/
def natLib : KeyLib Nat Nat where
  key_gen := fun seed => ofDigits 256 seed + 1
  _derive_path := fun k path => k + path.foldl (fun a i => 2 * a + i) 0
  master_sk_to_wallet_sk_unhardened := fun k i => 3 * k + i + 5
  get_g1 := fun k => 2 * k + 1
  calculate_synthetic_public_key := fun p h => p + ofDigits 256 h
  puzzle_hash_for_synthetic_public_key := fun p => toDigits 256 32 p
  sk_bytes := fun k => toDigits 256 32 k
  pk_repr := fun k => toDigits 256 48 k
  DEFAULT_HIDDEN_PUZZLE_HASH := List.replicate 32 7

/-- The character codes of the mainnet hrp string `xch`. -/
def xchHrp : List Nat := [120, 99, 104]

/-- A randomness source that is available and yields the bytes 0, 1, 2, …. -/
def availableSource : RandomSource where
  available := true
  bytes := fun i => i

/-- A randomness source that is unavailable. -/
def unavailableSource : RandomSource where
  available := false
  bytes := fun _ => 0

/-- Appending one digit multiplies the value by the base and adds the digit. -/
theorem ofDigits_append (base : Nat) (xs : List Nat) (d : Nat) :
    ofDigits base (xs ++ [d]) = base * ofDigits base xs + d := by
  simp [ofDigits, List.foldl_append]

/-- The digit expansion always has the requested length. -/
theorem toDigits_length (base len : Nat) : ∀ n, (toDigits base len n).length = len := by
  induction len with
  | zero => intro n; rfl
  | succ len ih => intro n; simp [toDigits, ih]

/-- Every emitted digit is below the base. -/
theorem toDigits_lt (base len : Nat) (hb : 0 < base) :
    ∀ n, ∀ d ∈ toDigits base len n, d < base := by
  induction len with
  | zero => intro n d hd; simp [toDigits] at hd
  | succ len ih =>
    intro n d hd
    simp only [toDigits, List.mem_append, List.mem_singleton] at hd
    rcases hd with hd | hd
    · exact ih (n / base) d hd
    · rw [hd]; exact Nat.mod_lt _ hb

/-- Expanding the value of a digit list recovers the list, provided every
digit is below the base. -/
theorem toDigits_ofDigits (base : Nat) (xs : List Nat) (h : ∀ d ∈ xs, d < base) :
    toDigits base xs.length (ofDigits base xs) = xs := by
  induction xs using List.reverseRecOn with
  | nil => rfl
  | append_singleton xs d ih =>
    have hd : d < base := h d (by simp)
    have hb : 0 < base := Nat.lt_of_le_of_lt (Nat.zero_le d) hd
    have hxs : ∀ x ∈ xs, x < base := fun x hx => h x (by simp [hx])
    rw [ofDigits_append]
    have hlen : (xs ++ [d]).length = xs.length + 1 := by simp
    rw [hlen]
    show toDigits base xs.length ((base * ofDigits base xs + d) / base)
        ++ [(base * ofDigits base xs + d) % base] = xs ++ [d]
    rw [Nat.mul_add_div hb, Nat.div_eq_of_lt hd, Nat.add_zero,
      Nat.mul_add_mod, Nat.mod_eq_of_lt hd, ih hxs]

/-- Taking the value of the digit expansion recovers the number, provided it
fits in the requested number of digits. -/
theorem ofDigits_toDigits (base len : Nat) (hb : 0 < base) :
    ∀ n, n < base ^ len → ofDigits base (toDigits base len n) = n := by
  induction len with
  | zero =>
    intro n hn
    have : n = 0 := Nat.lt_one_iff.mp (by simpa using hn)
    simp [this, toDigits, ofDigits]
  | succ len ih =>
    intro n hn
    show ofDigits base (toDigits base len (n / base) ++ [n % base]) = n
    rw [ofDigits_append]
    have hdiv : n / base < base ^ len := by
      rw [Nat.div_lt_iff_lt_mul hb]
      rw [pow_succ] at hn
      exact hn
    rw [ih _ hdiv]
    exact Nat.div_add_mod n base

/-- The value of a digit list is below base to the power of its length. -/
theorem ofDigits_lt (base : Nat) (xs : List Nat) (hb : 0 < base)
    (h : ∀ d ∈ xs, d < base) : ofDigits base xs < base ^ xs.length := by
  induction xs using List.reverseRecOn with
  | nil => simp [ofDigits]
  | append_singleton xs d ih =>
    have hd : d < base := h d (by simp)
    have hA : ofDigits base xs < base ^ xs.length :=
      ih (fun x hx => h x (by simp [hx]))
    rw [ofDigits_append]
    have hlen : (xs ++ [d]).length = xs.length + 1 := by simp
    rw [hlen, pow_succ]
    have h1 : base * ofDigits base xs + d < base * (ofDigits base xs + 1) := by
      rw [Nat.mul_add, Nat.mul_one]
      omega
    have h2 : base * (ofDigits base xs + 1) ≤ base * base ^ xs.length :=
      Nat.mul_le_mul_left base hA
    have h3 : base * base ^ xs.length = base ^ xs.length * base := Nat.mul_comm _ _
    omega

/-- Decoding the character of a data symbol recovers the symbol. -/
theorem decodeSym_encodeSym : ∀ d, d < 32 → decodeSym (encodeSym d) = some d := by decide

/-- Decoding a mapped symbol string recovers the symbols, provided all are
5-bit values. -/
theorem decodeSyms_map_encodeSym :
    ∀ ds : List Nat, (∀ d ∈ ds, d < 32) → decodeSyms (ds.map encodeSym) = some ds := by
  intro ds h
  induction ds with
  | nil => rfl
  | cons d ds ih =>
    have hd : d < 32 := h d (by simp)
    have hds : ∀ x ∈ ds, x < 32 := fun x hx => h x (by simp [hx])
    simp [decodeSyms, decodeSym_encodeSym d hd, ih hds]

/-- The checksum always consists of six symbols. -/
theorem createChecksum_length (hrp data : List Nat) :
    (createChecksum hrp data).length = 6 :=
  toDigits_length 32 6 _

/-- Every checksum symbol is a 5-bit value. -/
theorem createChecksum_lt (hrp data : List Nat) :
    ∀ d ∈ createChecksum hrp data, d < 32 :=
  toDigits_lt 32 6 (by norm_num) _

/-- An encoded address consists of the human-readable part, the separator, 52
data characters and 6 checksum characters. -/
theorem encode_puzzle_hash_length (H hrp : List Nat) :
    (encode_puzzle_hash H hrp).length = hrp.length + 59 := by
  simp [encode_puzzle_hash, toDigits_length, createChecksum_length]

/-- The human-readable part is recoverable as the leading characters of the
encoded address. -/
theorem encode_puzzle_hash_take (H hrp : List Nat) :
    (encode_puzzle_hash H hrp).take hrp.length = hrp := by
  unfold encode_puzzle_hash
  rw [List.append_assoc]
  exact List.take_left' rfl

/-- Encoding the same puzzle hash with two human-readable parts that give the
same address forces the parts to be equal. -/
theorem encode_puzzle_hash_hrp_inj (H hrp1 hrp2 : List Nat)
    (h : encode_puzzle_hash H hrp1 = encode_puzzle_hash H hrp2) : hrp1 = hrp2 := by
  have hlen : hrp1.length = hrp2.length := by
    have hcong := congrArg List.length h
    rw [encode_puzzle_hash_length, encode_puzzle_hash_length] at hcong
    omega
  calc hrp1 = (encode_puzzle_hash H hrp1).take hrp1.length :=
        (encode_puzzle_hash_take H hrp1).symm
    _ = (encode_puzzle_hash H hrp2).take hrp2.length := by rw [h, hlen]
    _ = hrp2 := encode_puzzle_hash_take H hrp2

/-- Decoding an encoded puzzle hash with its human-readable part yields back
the original 32-byte hash. -/
theorem decode_encode_puzzle_hash (H hrp : List Nat) (hlen : H.length = 32)
    (hb : ∀ bt ∈ H, bt < 256) :
    decode_puzzle_hash (encode_puzzle_hash H hrp) hrp = some H := by
  have hN : ofDigits 256 H < 256 ^ 32 := by
    have := ofDigits_lt 256 H (by norm_num) hb
    rwa [hlen] at this
  have hM : 16 * ofDigits 256 H < 32 ^ 52 := by
    have h1 : 16 * ofDigits 256 H < 16 * 256 ^ 32 := by omega
    have h2 : (16 : Nat) * 256 ^ 32 = 32 ^ 52 := by norm_num
    omega
  have hdatalen : (toDigits 32 52 (16 * ofDigits 256 H)).length = 52 :=
    toDigits_length 32 52 _
  have hall : ∀ d ∈ toDigits 32 52 (16 * ofDigits 256 H)
      ++ createChecksum hrp (toDigits 32 52 (16 * ofDigits 256 H)), d < 32 := by
    intro d hd
    rcases List.mem_append.mp hd with hd | hd
    · exact toDigits_lt 32 52 (by norm_num) _ d hd
    · exact createChecksum_lt _ _ d hd
  have htake : (encode_puzzle_hash H hrp).take (hrp.length + 1) = hrp ++ [49] := by
    unfold encode_puzzle_hash
    exact List.take_left' (by simp)
  have hdrop : (encode_puzzle_hash H hrp).drop (hrp.length + 1)
      = (toDigits 32 52 (16 * ofDigits 256 H)
        ++ createChecksum hrp (toDigits 32 52 (16 * ofDigits 256 H))).map encodeSym := by
    unfold encode_puzzle_hash
    exact List.drop_left' (by simp)
  have hVal : ofDigits 32 (toDigits 32 52 (16 * ofDigits 256 H)) = 16 * ofDigits 256 H :=
    ofDigits_toDigits 32 52 (by norm_num) _ hM
  have hsplitTake : (toDigits 32 52 (16 * ofDigits 256 H)
      ++ createChecksum hrp (toDigits 32 52 (16 * ofDigits 256 H))).take 52
      = toDigits 32 52 (16 * ofDigits 256 H) := List.take_left' hdatalen
  have hsplitDrop : (toDigits 32 52 (16 * ofDigits 256 H)
      ++ createChecksum hrp (toDigits 32 52 (16 * ofDigits 256 H))).drop 52
      = createChecksum hrp (toDigits 32 52 (16 * ofDigits 256 H)) := List.drop_left' hdatalen
  unfold decode_puzzle_hash
  rw [htake, if_pos rfl, hdrop, decodeSyms_map_encodeSym _ hall]
  show (if (toDigits 32 52 (16 * ofDigits 256 H)
        ++ createChecksum hrp (toDigits 32 52 (16 * ofDigits 256 H))).length = 58
      ∧ _ = createChecksum hrp _ ∧ ofDigits 32 _ % 16 = 0 then
      some (toDigits 256 32 (ofDigits 32 ((toDigits 32 52 (16 * ofDigits 256 H)
        ++ createChecksum hrp (toDigits 32 52 (16 * ofDigits 256 H))).take 52) / 16))
    else none) = some H
  rw [if_pos]
  · rw [hsplitTake, hVal, Nat.mul_div_cancel_left _ (by norm_num : (0:Nat) < 16)]
    have := toDigits_ofDigits 256 H hb
    rw [hlen] at this
    rw [this]
  · refine ⟨by simp [hdatalen, createChecksum_length], ?_, ?_⟩
    · rw [hsplitTake, hsplitDrop]
    · rw [hsplitTake, hVal]
      exact Nat.mul_mod_right 16 _

/-- Characterization of a successful run of `generate_xch_key`: given the
entropy drawn and the seed stretched from the fresh mnemonic, the run succeeds
and produces exactly the five output lines of `keys.py`, each carrying the
value derived as in the source. -/
theorem generate_xch_key_spec {SK PK : Type} (lib : KeyLib SK PK) (hrp : List Nat)
    (source : RandomSource) (entropy seed : List Nat)
    (he : generate_entropy source = some entropy)
    (hs : mnemonic_to_seed (bytes_to_mnemonic entropy) [] = Except.ok seed) :
    generate_xch_key lib hrp source = Except.ok
      [Line.banner,
       Line.mnemonicLine (bytes_to_mnemonic entropy),
       Line.privateKeyLine (hexOfBytes (lib.sk_bytes
         (lib._derive_path (lib.key_gen seed) [12381, 8444, 7, 0]))),
       Line.publicKeyLine (lib.pk_repr (lib.get_g1
         (lib._derive_path (lib.key_gen seed) [12381, 8444, 7, 0]))),
       Line.firstAddressLine (encode_puzzle_hash
         (lib.puzzle_hash_for_synthetic_public_key
           (lib.calculate_synthetic_public_key
             (lib.get_g1 (lib.master_sk_to_wallet_sk_unhardened (lib.key_gen seed) 0))
             lib.DEFAULT_HIDDEN_PUZZLE_HASH)) hrp)] := by
  unfold generate_xch_key mnemonic_to_validator_pk
  simp only [he, hs]

/-- A successful run of `generate_xch_key` determines an entropy draw and a
seed derived from the fresh mnemonic. -/
theorem generate_xch_key_ok_inv {SK PK : Type} (lib : KeyLib SK PK) (hrp : List Nat)
    (source : RandomSource) (lines : List Line)
    (h : generate_xch_key lib hrp source = Except.ok lines) :
    ∃ entropy seed, generate_entropy source = some entropy ∧
      mnemonic_to_seed (bytes_to_mnemonic entropy) [] = Except.ok seed := by
  unfold generate_xch_key mnemonic_to_validator_pk at h
  cases hge : generate_entropy source with
  | none =>
    rw [hge] at h
    exact absurd h (by simp)
  | some entropy =>
    rw [hge] at h
    simp only at h
    cases hms : mnemonic_to_seed (bytes_to_mnemonic entropy) [] with
    | error e =>
      rw [hms] at h
      exact absurd h (by simp)
    | ok seed =>
      exact ⟨entropy, seed, rfl, hms⟩

/-- Claim C1: in `generate_xch_key` the first wallet address is computed from
the unhardened wallet key `master_sk_to_wallet_sk_unhardened(root_key, 0)`
derived directly from the root key, not from the validator key derived via
`_derive_path` with `[12381, 8444, 7, 0]`; both branches start from the same
root key `key_gen(seed)`, and the address pipeline is unhardened wallet
private key, public key via `get_g1`, synthetic public key blinded with
`DEFAULT_HIDDEN_PUZZLE_HASH`, puzzle hash, and bech32m encoding with the
configured human-readable part. -/
theorem c1_first_address_from_unhardened_wallet_key {SK PK : Type}
    (lib : KeyLib SK PK) (hrp : List Nat) (source : RandomSource) (lines : List Line)
    (h : generate_xch_key lib hrp source = Except.ok lines) :
    ∃ entropy seed, generate_entropy source = some entropy ∧
      mnemonic_to_seed (bytes_to_mnemonic entropy) [] = Except.ok seed ∧
      lines.getLast? = some (Line.firstAddressLine (encode_puzzle_hash
        (lib.puzzle_hash_for_synthetic_public_key
          (lib.calculate_synthetic_public_key
            (lib.get_g1 (lib.master_sk_to_wallet_sk_unhardened (lib.key_gen seed) 0))
            lib.DEFAULT_HIDDEN_PUZZLE_HASH)) hrp)) ∧
      mnemonic_to_validator_pk lib (bytes_to_mnemonic entropy)
        = Except.ok (lib._derive_path (lib.key_gen seed) [12381, 8444, 7, 0]) := by
  obtain ⟨entropy, seed, hge, hms⟩ := generate_xch_key_ok_inv lib hrp source lines h
  have hspec := generate_xch_key_spec lib hrp source entropy seed hge hms
  have hl : lines = _ := Except.ok.inj (h.symm.trans hspec)
  subst hl
  refine ⟨entropy, seed, hge, hms, rfl, ?_⟩
  unfold mnemonic_to_validator_pk
  rw [hms]

/-- Claim C2: the mnemonic-to-validator-key derivation is deterministic — for
equal seeds, `key_gen` followed by `_derive_path` with the fixed path yields
equal derived keys, and for equal mnemonics two runs of
`mnemonic_to_validator_pk` produce equal private keys. -/
theorem c2_validator_derivation_deterministic {SK PK : Type} (lib : KeyLib SK PK)
    (s1 s2 : List Nat) (hseq : s1 = s2) :
    lib._derive_path (lib.key_gen s1) [12381, 8444, 7, 0]
      = lib._derive_path (lib.key_gen s2) [12381, 8444, 7, 0]
    ∧ ∀ m1 m2 : List Nat, m1 = m2 →
        mnemonic_to_validator_pk lib m1 = mnemonic_to_validator_pk lib m2 := by
  subst hseq
  exact ⟨rfl, fun m1 m2 hm => by rw [hm]⟩

/-- Claim C3: whenever the seed derivation succeeds, both the derivation in
`mnemonic_to_validator_pk` and the inline recomputation in `generate_xch_key`
apply `_derive_path` to the root key with exactly the four indices
`[12381, 8444, 7, 0]` in this order. -/
theorem c3_validator_path_is_fixed_constant {SK PK : Type} (lib : KeyLib SK PK)
    (mnemonic seed : List Nat)
    (hs : mnemonic_to_seed mnemonic [] = Except.ok seed) :
    mnemonic_to_validator_pk lib mnemonic
      = Except.ok (lib._derive_path (lib.key_gen seed) [12381, 8444, 7, 0])
    ∧ recomputed_validator_sk lib mnemonic
      = Except.ok (lib._derive_path (lib.key_gen seed) [12381, 8444, 7, 0]) := by
  unfold mnemonic_to_validator_pk recomputed_validator_sk
  rw [hs]
  exact ⟨rfl, rfl⟩

/-- Claim C5: a successful run of `generate_xch_key` prints, in order, the
banner, the mnemonic, the private key in hex, the public key in its textual
form, and the first derived address. -/
theorem c5_output_lines_in_order {SK PK : Type} (lib : KeyLib SK PK)
    (hrp : List Nat) (source : RandomSource) (lines : List Line)
    (h : generate_xch_key lib hrp source = Except.ok lines) :
    ∃ m sk pk addr, lines = [Line.banner, Line.mnemonicLine m,
      Line.privateKeyLine sk, Line.publicKeyLine pk, Line.firstAddressLine addr] := by
  obtain ⟨entropy, seed, hge, hms⟩ := generate_xch_key_ok_inv lib hrp source lines h
  have hspec := generate_xch_key_spec lib hrp source entropy seed hge hms
  exact ⟨_, _, _, _, Except.ok.inj (h.symm.trans hspec)⟩

/-- Claim C9: the inline recomputation of the validator private key at lines
32–34 of `keys.py` agrees with `mnemonic_to_validator_pk`, which produced the
private key printed at line 29, for every mnemonic. -/
theorem c9_recomputed_key_equals_printed_key {SK PK : Type} (lib : KeyLib SK PK)
    (mnemonic : List Nat) :
    recomputed_validator_sk lib mnemonic = mnemonic_to_validator_pk lib mnemonic := by
  unfold recomputed_validator_sk mnemonic_to_validator_pk
  cases mnemonic_to_seed mnemonic [] <;> rfl

/-- Claim C10: the printed first address does not depend on the validator-path
derivation — two runs on the same randomness source and human-readable part,
differing arbitrarily in the `_derive_path` implementation, print the same
final (first-address) line. -/
theorem c10_first_address_independent_of_derive_path {SK PK : Type}
    (lib : KeyLib SK PK) (dp1 dp2 : SK → List Nat → SK) (hrp : List Nat)
    (source : RandomSource) (l1 l2 : List Line)
    (h1 : generate_xch_key { lib with _derive_path := dp1 } hrp source = Except.ok l1)
    (h2 : generate_xch_key { lib with _derive_path := dp2 } hrp source = Except.ok l2) :
    l1.getLast? = l2.getLast? := by
  obtain ⟨e1, s1, hge1, hms1⟩ := generate_xch_key_ok_inv _ _ _ _ h1
  obtain ⟨e2, s2, hge2, hms2⟩ := generate_xch_key_ok_inv _ _ _ _ h2
  have he : e1 = e2 := Option.some.inj (hge1.symm.trans hge2)
  subst he
  have hs : s1 = s2 := Except.ok.inj (hms1.symm.trans hms2)
  subst hs
  have hl1 := Except.ok.inj (h1.symm.trans
    (generate_xch_key_spec { lib with _derive_path := dp1 } hrp source e1 s1 hge1 hms1))
  have hl2 := Except.ok.inj (h2.symm.trans
    (generate_xch_key_spec { lib with _derive_path := dp2 } hrp source e1 s1 hge1 hms1))
  subst hl1
  subst hl2
  rfl

/-- Claim C4: for every well-formed mnemonic (and any passphrase, empty by
default), `mnemonic_to_seed` is a deterministic total function that fails with
`invalidMnemonic` exactly when the mnemonic checksum is invalid, and succeeds
otherwise. -/
theorem c4_mnemonic_to_seed_fails_iff_bad_checksum (m passphrase : List Nat)
    (hwf : well_formed_mnemonic m) :
    (mnemonic_to_seed m passphrase = Except.error KeychainError.invalidMnemonic
      ↔ ¬ mnemonic_checksum_ok m)
    ∧ ((∃ s, mnemonic_to_seed m passphrase = Except.ok s) ↔ mnemonic_checksum_ok m) := by
  have hpos : mnemonic_checksum_ok m →
      mnemonic_to_bytes m = some (toDigits 256 16 (ofDigits 2048 m / 16)) := fun hc => by
    unfold mnemonic_to_bytes
    rw [if_pos hwf, if_pos hc]
  have hneg : ¬ mnemonic_checksum_ok m → mnemonic_to_bytes m = none := fun hc => by
    unfold mnemonic_to_bytes
    rw [if_pos hwf, if_neg hc]
  by_cases hc : mnemonic_checksum_ok m
  · unfold mnemonic_to_seed
    rw [hpos hc]
    exact ⟨⟨fun habs => Except.noConfusion habs, fun hnp => absurd hc hnp⟩,
      ⟨fun _ => hc, fun _ => ⟨seedStretch m passphrase, rfl⟩⟩⟩
  · unfold mnemonic_to_seed
    rw [hneg hc]
    refine ⟨⟨fun _ => hc, fun _ => rfl⟩, ⟨?_, fun hok => absurd hok hc⟩⟩
    rintro ⟨s, hs⟩
    exact Except.noConfusion hs

/-- Claim C6: the entropy draw takes exactly 16 bytes from the randomness
source, failing exactly when the source is unavailable, and in every
successful run of `generate_xch_key` the value passed to `bytes_to_mnemonic`
is that 16-byte entropy. -/
theorem c6_entropy_is_16_bytes (source : RandomSource) :
    (generate_entropy source = none ↔ source.available = false)
    ∧ (∀ e, generate_entropy source = some e → e.length = 16)
    ∧ (∀ (SK PK : Type) (lib : KeyLib SK PK) (hrp : List Nat) (lines : List Line),
        generate_xch_key lib hrp source = Except.ok lines →
        ∃ e, generate_entropy source = some e ∧ e.length = 16 ∧
          lines[1]? = some (Line.mnemonicLine (bytes_to_mnemonic e))) := by
  have hlen : ∀ e, generate_entropy source = some e → e.length = 16 := by
    intro e he
    unfold generate_entropy token_bytes at he
    by_cases hav : source.available
    · rw [if_pos hav] at he
      rw [← Option.some.inj he]
      simp
    · rw [if_neg hav] at he
      exact absurd he (by simp)
  refine ⟨?_, hlen, ?_⟩
  · unfold generate_entropy token_bytes
    cases hav : source.available <;> simp [hav]
  · intro SK PK lib hrp lines h
    obtain ⟨entropy, seed, hge, hms⟩ := generate_xch_key_ok_inv lib hrp source lines h
    have hspec := generate_xch_key_spec lib hrp source entropy seed hge hms
    have hl : lines = _ := Except.ok.inj (h.symm.trans hspec)
    subst hl
    exact ⟨entropy, hge, hlen entropy hge, rfl⟩

/-- Claim C7: converting any valid 16-byte entropy to a mnemonic and back
recovers exactly the original bytes — the entropy-to-mnemonic encoding is
lossless. -/
theorem c7_entropy_mnemonic_roundtrip (e : List Nat) (hlen : e.length = 16)
    (hb : ∀ bt ∈ e, bt < 256) :
    mnemonic_to_bytes (bytes_to_mnemonic e) = some e := by
  have hN : ofDigits 256 e < 256 ^ 16 := by
    have := ofDigits_lt 256 e (by norm_num) hb
    rwa [hlen] at this
  have hcs : entropyChecksum e < 16 := Nat.mod_lt _ (by norm_num)
  have hM : 16 * ofDigits 256 e + entropyChecksum e < 2048 ^ 12 := by
    have h1 : 16 * ofDigits 256 e + entropyChecksum e < 16 * (ofDigits 256 e + 1) := by
      rw [Nat.mul_add, Nat.mul_one]
      omega
    have h2 : 16 * (ofDigits 256 e + 1) ≤ 16 * 256 ^ 16 := Nat.mul_le_mul_left 16 hN
    have h3 : (16 : Nat) * 256 ^ 16 = 2048 ^ 12 := by norm_num
    omega
  have htotal : ofDigits 2048 (toDigits 2048 12 (16 * ofDigits 256 e + entropyChecksum e))
      = 16 * ofDigits 256 e + entropyChecksum e :=
    ofDigits_toDigits 2048 12 (by norm_num) _ hM
  have hdiv : (16 * ofDigits 256 e + entropyChecksum e) / 16 = ofDigits 256 e := by
    rw [Nat.mul_add_div (by norm_num : (0:Nat) < 16), Nat.div_eq_of_lt hcs, Nat.add_zero]
  have hmod : (16 * ofDigits 256 e + entropyChecksum e) % 16 = entropyChecksum e := by
    rw [Nat.mul_add_mod]
    exact Nat.mod_eq_of_lt hcs
  have hE : toDigits 256 16 (ofDigits 256 e) = e := by
    have := toDigits_ofDigits 256 e hb
    rwa [hlen] at this
  unfold bytes_to_mnemonic mnemonic_to_bytes
  rw [if_pos ⟨toDigits_length 2048 12 _, toDigits_lt 2048 12 (by norm_num) _⟩,
    htotal, hdiv, hmod, hE, if_pos rfl]

/-- Claim C8: encoding one puzzle hash with two different human-readable parts
yields two different address strings, and decoding each of them with its own
human-readable part yields the identical puzzle hash. -/
theorem c8_hrp_sensitivity (H hrp1 hrp2 : List Nat) (hlen : H.length = 32)
    (hb : ∀ bt ∈ H, bt < 256) (hne : hrp1 ≠ hrp2) :
    encode_puzzle_hash H hrp1 ≠ encode_puzzle_hash H hrp2
    ∧ decode_puzzle_hash (encode_puzzle_hash H hrp1) hrp1 = some H
    ∧ decode_puzzle_hash (encode_puzzle_hash H hrp2) hrp2 = some H := by
  refine ⟨?_, decode_encode_puzzle_hash H hrp1 hlen hb,
    decode_encode_puzzle_hash H hrp2 hlen hb⟩
  intro h
  exact hne (encode_puzzle_hash_hrp_inj H hrp1 hrp2 h)

/-- Witness for claim C1 on a concrete library instance, human-readable part
and randomness source. -/
theorem c1_witness :
    ∃ lines, generate_xch_key natLib xchHrp availableSource = Except.ok lines
      ∧ ∃ entropy seed, generate_entropy availableSource = some entropy
        ∧ mnemonic_to_seed (bytes_to_mnemonic entropy) [] = Except.ok seed
        ∧ lines.getLast? = some (Line.firstAddressLine (encode_puzzle_hash
            (natLib.puzzle_hash_for_synthetic_public_key
              (natLib.calculate_synthetic_public_key
                (natLib.get_g1
                  (natLib.master_sk_to_wallet_sk_unhardened (natLib.key_gen seed) 0))
                natLib.DEFAULT_HIDDEN_PUZZLE_HASH)) xchHrp))
        ∧ mnemonic_to_validator_pk natLib (bytes_to_mnemonic entropy)
            = Except.ok (natLib._derive_path (natLib.key_gen seed) [12381, 8444, 7, 0]) :=
  ⟨_, rfl, c1_first_address_from_unhardened_wallet_key natLib xchHrp availableSource _ rfl⟩

/-- Witness for claim C2 at a concrete seed and library instance. -/
theorem c2_witness :
    natLib._derive_path (natLib.key_gen [1]) [12381, 8444, 7, 0]
      = natLib._derive_path (natLib.key_gen [1]) [12381, 8444, 7, 0]
    ∧ ∀ m1 m2 : List Nat, m1 = m2 →
        mnemonic_to_validator_pk natLib m1 = mnemonic_to_validator_pk natLib m2 :=
  c2_validator_derivation_deterministic natLib [1] [1] rfl

/-- Witness for claim C3 at a concrete valid mnemonic. -/
theorem c3_witness :
    ∃ seed, mnemonic_to_seed (List.replicate 12 0) [] = Except.ok seed
      ∧ mnemonic_to_validator_pk natLib (List.replicate 12 0)
          = Except.ok (natLib._derive_path (natLib.key_gen seed) [12381, 8444, 7, 0])
      ∧ recomputed_validator_sk natLib (List.replicate 12 0)
          = Except.ok (natLib._derive_path (natLib.key_gen seed) [12381, 8444, 7, 0]) :=
  ⟨_, rfl, c3_validator_path_is_fixed_constant natLib (List.replicate 12 0) _ rfl⟩

/-- Witness for claim C4 at a concrete well-formed mnemonic. -/
theorem c4_witness :
    well_formed_mnemonic (List.replicate 12 0)
    ∧ (mnemonic_to_seed (List.replicate 12 0) [] = Except.error KeychainError.invalidMnemonic
        ↔ ¬ mnemonic_checksum_ok (List.replicate 12 0))
    ∧ ((∃ s, mnemonic_to_seed (List.replicate 12 0) [] = Except.ok s)
        ↔ mnemonic_checksum_ok (List.replicate 12 0)) :=
  ⟨by decide,
    (c4_mnemonic_to_seed_fails_iff_bad_checksum (List.replicate 12 0) [] (by decide)).1,
    (c4_mnemonic_to_seed_fails_iff_bad_checksum (List.replicate 12 0) [] (by decide)).2⟩

/-- Witness for claim C5 on a concrete run. -/
theorem c5_witness :
    ∃ lines, generate_xch_key natLib xchHrp availableSource = Except.ok lines
      ∧ ∃ m sk pk addr, lines = [Line.banner, Line.mnemonicLine m,
          Line.privateKeyLine sk, Line.publicKeyLine pk, Line.firstAddressLine addr] :=
  ⟨_, rfl, c5_output_lines_in_order natLib xchHrp availableSource _ rfl⟩

/-- Witness for claim C6 on concrete randomness sources: the draw fails on the
unavailable source and yields 16 bytes on the available one. -/
theorem c6_witness :
    generate_entropy unavailableSource = none
    ∧ ∃ e, generate_entropy availableSource = some e ∧ e.length = 16 :=
  ⟨(c6_entropy_is_16_bytes unavailableSource).1.mpr rfl,
    ⟨_, rfl, (c6_entropy_is_16_bytes availableSource).2.1 _ rfl⟩⟩

/-- Witness for claim C7 at a concrete 16-byte entropy. -/
theorem c7_witness :
    (List.range 16).length = 16 ∧ (∀ bt ∈ List.range 16, bt < 256)
    ∧ mnemonic_to_bytes (bytes_to_mnemonic (List.range 16)) = some (List.range 16) :=
  ⟨by decide, by decide,
    c7_entropy_mnemonic_roundtrip (List.range 16) (by decide) (by decide)⟩

/-- Witness for claim C8 at a concrete puzzle hash and the `xch` / `txch`
human-readable parts. -/
theorem c8_witness :
    encode_puzzle_hash (List.replicate 32 0) [120, 99, 104]
      ≠ encode_puzzle_hash (List.replicate 32 0) [116, 120, 99, 104]
    ∧ decode_puzzle_hash (encode_puzzle_hash (List.replicate 32 0) [120, 99, 104])
        [120, 99, 104] = some (List.replicate 32 0)
    ∧ decode_puzzle_hash (encode_puzzle_hash (List.replicate 32 0) [116, 120, 99, 104])
        [116, 120, 99, 104] = some (List.replicate 32 0) :=
  c8_hrp_sensitivity (List.replicate 32 0) [120, 99, 104] [116, 120, 99, 104]
    (by decide) (by decide) (by decide)

/-- Witness for claim C10 on two concrete runs differing only in the
validator-path derivation function. -/
theorem c10_witness :
    ∃ l1 l2,
      generate_xch_key { natLib with _derive_path := fun k _ => k + 1 }
        xchHrp availableSource = Except.ok l1
      ∧ generate_xch_key { natLib with _derive_path := fun k _ => k + 2 }
          xchHrp availableSource = Except.ok l2
      ∧ l1.getLast? = l2.getLast? :=
  ⟨_, _, rfl, rfl, c10_first_address_independent_of_derive_path natLib
    (fun k _ => k + 1) (fun k _ => k + 2) xchHrp availableSource _ _ rfl rfl⟩
